import Mathlib

/-!
Verification of the per-user envelope-encryption subsystem of the
task-manager repository: field-level authenticated encryption
(`CryptoService`), key derivation (`KeyDeriver`), password verification
(`PasswordHasher`), the session state machine (`SessionContext`) and the
authentication flow (`AuthService`).

Bytes are modelled as `Nat` (with values < 256 where it matters), byte
strings as `List Nat`, and text as lists of Unicode code points.
External cryptographic libraries (the AES-GCM AEAD, HKDF, argon2) are
modelled as parameters carrying their documented algorithmic contracts;
the Python code under `src/` is translated directly.
-/

namespace TaskManager

/-! ### UTF-8 codec

Models Python `str.encode("utf-8")` and `bytes.decode("utf-8")` over
lists of Unicode code points. -/

/-- A Unicode scalar value: in range and not a surrogate.  These are
exactly the code points a Python `str` character can carry through
`encode("utf-8")`. -/
def ValidCodepoint (c : Nat) : Prop :=
  c < 0x110000 ∧ ¬ (0xD800 ≤ c ∧ c ≤ 0xDFFF)

instance (c : Nat) : Decidable (ValidCodepoint c) := by
  unfold ValidCodepoint; infer_instance

/-- UTF-8 encoding of a single code point. -/
def utf8EncodeChar (c : Nat) : List Nat :=
  if c < 0x80 then [c]
  else if c < 0x800 then
    [0xC0 + c / 0x40, 0x80 + c % 0x40]
  else if c < 0x10000 then
    [0xE0 + c / 0x1000, 0x80 + (c / 0x40) % 0x40, 0x80 + c % 0x40]
  else
    [0xF0 + c / 0x40000, 0x80 + (c / 0x1000) % 0x40,
     0x80 + (c / 0x40) % 0x40, 0x80 + c % 0x40]

/-- UTF-8 encoding of a string of code points (Python `str.encode("utf-8")`). -/
def utf8Encode (cs : List Nat) : List Nat :=
  (cs.map utf8EncodeChar).flatten

/-- A UTF-8 continuation byte. -/
def isCont (b : Nat) : Bool :=
  decide (0x80 ≤ b) && decide (b < 0xC0)

/-- Decode a single UTF-8 sequence from a lead byte and the remaining
input, returning the code point and the unconsumed input.  Rejects stray
continuation bytes, truncated sequences, overlong encodings, surrogates
and out-of-range code points. -/
def utf8Step (b : Nat) (rest : List Nat) : Option (Nat × List Nat) :=
  if b < 0x80 then some (b, rest)
  else if b < 0xC0 then none
  else if b < 0xE0 then
    match rest with
    | b1 :: rest1 =>
      if isCont b1 then
        let c := (b - 0xC0) * 0x40 + (b1 - 0x80)
        if 0x80 ≤ c then some (c, rest1) else none
      else none
    | [] => none
  else if b < 0xF0 then
    match rest with
    | b1 :: b2 :: rest2 =>
      if isCont b1 && isCont b2 then
        let c := (b - 0xE0) * 0x1000 + (b1 - 0x80) * 0x40 + (b2 - 0x80)
        if 0x800 ≤ c ∧ ¬ (0xD800 ≤ c ∧ c ≤ 0xDFFF) then some (c, rest2)
        else none
      else none
    | _ => none
  else if b < 0xF5 then
    match rest with
    | b1 :: b2 :: b3 :: rest3 =>
      if isCont b1 && isCont b2 && isCont b3 then
        let c := (b - 0xF0) * 0x40000 + (b1 - 0x80) * 0x1000 +
                 (b2 - 0x80) * 0x40 + (b3 - 0x80)
        if 0x10000 ≤ c ∧ c < 0x110000 then some (c, rest3) else none
      else none
    | _ => none
  else none

/-- Fuel-indexed UTF-8 decoding loop; the fuel only bounds the number of
decoded characters and is set to the input length in `utf8Decode`. -/
def utf8DecodeGo : Nat → List Nat → Option (List Nat)
  | _, [] => some []
  | 0, _ :: _ => none
  | fuel + 1, b :: rest =>
    match utf8Step b rest with
    | none => none
    | some (c, restN) => (utf8DecodeGo fuel restN).map (fun cs => c :: cs)

/-- Strict UTF-8 decoding (Python `bytes.decode("utf-8")`); `none`
models a raised `UnicodeDecodeError`. -/
def utf8Decode (l : List Nat) : Option (List Nat) :=
  utf8DecodeGo l.length l

theorem utf8Step_one (c : Nat) (h : c < 0x80) (rest : List Nat) :
    utf8Step c rest = some (c, rest) := by
  unfold utf8Step
  rw [if_pos h]

theorem utf8Step_two (c : Nat) (h1 : 0x80 ≤ c) (h2 : c < 0x800)
    (rest : List Nat) :
    utf8Step (0xC0 + c / 0x40) ((0x80 + c % 0x40) :: rest) = some (c, rest) := by
  have e1 : ¬ (0xC0 + c / 0x40 < 0x80) := by omega
  have e2 : ¬ (0xC0 + c / 0x40 < 0xC0) := by omega
  have e3 : 0xC0 + c / 0x40 < 0xE0 := by omega
  have e4 : isCont (0x80 + c % 0x40) = true := by
    unfold isCont
    simp only [Bool.and_eq_true, decide_eq_true_eq]
    omega
  have e5 : (0xC0 + c / 0x40 - 0xC0) * 0x40 + (0x80 + c % 0x40 - 0x80) = c := by
    omega
  unfold utf8Step
  rw [if_neg e1, if_neg e2, if_pos e3]
  simp only [e4, if_true, e5]
  rw [if_pos h1]

theorem utf8Step_three (c : Nat) (h1 : 0x800 ≤ c) (h2 : c < 0x10000)
    (hs : ¬ (0xD800 ≤ c ∧ c ≤ 0xDFFF)) (rest : List Nat) :
    utf8Step (0xE0 + c / 0x1000)
      ((0x80 + (c / 0x40) % 0x40) :: (0x80 + c % 0x40) :: rest) =
      some (c, rest) := by
  have e1 : ¬ (0xE0 + c / 0x1000 < 0x80) := by omega
  have e2 : ¬ (0xE0 + c / 0x1000 < 0xC0) := by omega
  have e3 : ¬ (0xE0 + c / 0x1000 < 0xE0) := by omega
  have e4 : 0xE0 + c / 0x1000 < 0xF0 := by omega
  have e5 : isCont (0x80 + (c / 0x40) % 0x40) = true := by
    unfold isCont
    simp only [Bool.and_eq_true, decide_eq_true_eq]
    omega
  have e6 : isCont (0x80 + c % 0x40) = true := by
    unfold isCont
    simp only [Bool.and_eq_true, decide_eq_true_eq]
    omega
  have e7 : (0xE0 + c / 0x1000 - 0xE0) * 0x1000 +
      (0x80 + (c / 0x40) % 0x40 - 0x80) * 0x40 + (0x80 + c % 0x40 - 0x80) = c := by
    omega
  have e8 : 0x800 ≤ c ∧ ¬ (0xD800 ≤ c ∧ c ≤ 0xDFFF) := ⟨h1, hs⟩
  unfold utf8Step
  rw [if_neg e1, if_neg e2, if_neg e3, if_pos e4]
  simp only [e5, e6, Bool.and_self, if_true, e7]
  rw [if_pos e8]

theorem utf8Step_four (c : Nat) (h1 : 0x10000 ≤ c) (h2 : c < 0x110000)
    (rest : List Nat) :
    utf8Step (0xF0 + c / 0x40000)
      ((0x80 + (c / 0x1000) % 0x40) :: (0x80 + (c / 0x40) % 0x40) ::
       (0x80 + c % 0x40) :: rest) = some (c, rest) := by
  have e1 : ¬ (0xF0 + c / 0x40000 < 0x80) := by omega
  have e2 : ¬ (0xF0 + c / 0x40000 < 0xC0) := by omega
  have e3 : ¬ (0xF0 + c / 0x40000 < 0xE0) := by omega
  have e4 : ¬ (0xF0 + c / 0x40000 < 0xF0) := by omega
  have e5 : 0xF0 + c / 0x40000 < 0xF5 := by omega
  have e6 : isCont (0x80 + (c / 0x1000) % 0x40) = true := by
    unfold isCont
    simp only [Bool.and_eq_true, decide_eq_true_eq]
    omega
  have e7 : isCont (0x80 + (c / 0x40) % 0x40) = true := by
    unfold isCont
    simp only [Bool.and_eq_true, decide_eq_true_eq]
    omega
  have e8 : isCont (0x80 + c % 0x40) = true := by
    unfold isCont
    simp only [Bool.and_eq_true, decide_eq_true_eq]
    omega
  have e9 : (0xF0 + c / 0x40000 - 0xF0) * 0x40000 +
      (0x80 + (c / 0x1000) % 0x40 - 0x80) * 0x1000 +
      (0x80 + (c / 0x40) % 0x40 - 0x80) * 0x40 + (0x80 + c % 0x40 - 0x80) = c := by
    omega
  have e10 : 0x10000 ≤ c ∧ c < 0x110000 := ⟨h1, h2⟩
  unfold utf8Step
  rw [if_neg e1, if_neg e2, if_neg e3, if_neg e4, if_pos e5]
  simp only [e6, e7, e8, Bool.and_self, if_true, e9]
  rw [if_pos e10]

/-- Decoding one encoded character from the front of the input. -/
theorem utf8Step_encodeChar (c : Nat) (h : ValidCodepoint c)
    (rest : List Nat) :
    ∃ tail : List Nat,
      utf8EncodeChar c ++ rest = (utf8EncodeChar c).headI :: tail ∧
      utf8Step (utf8EncodeChar c).headI tail = some (c, rest) ∧
      tail.length = (utf8EncodeChar c).length - 1 + rest.length := by
  obtain ⟨hlt, hs⟩ := h
  by_cases h1 : c < 0x80
  · refine ⟨rest, ?_, ?_, ?_⟩
    · simp [utf8EncodeChar, h1]
    · simpa [utf8EncodeChar, h1] using utf8Step_one c h1 rest
    · simp [utf8EncodeChar, h1]
  · by_cases h2 : c < 0x800
    · refine ⟨(0x80 + c % 0x40) :: rest, ?_, ?_, ?_⟩
      · simp [utf8EncodeChar, h1, h2]
      · simpa [utf8EncodeChar, h1, h2] using utf8Step_two c (by omega) h2 rest
      · simp [utf8EncodeChar, h1, h2]
        omega
    · by_cases h3 : c < 0x10000
      · refine ⟨(0x80 + (c / 0x40) % 0x40) :: (0x80 + c % 0x40) :: rest,
          ?_, ?_, ?_⟩
        · simp [utf8EncodeChar, h1, h2, h3]
        · simpa [utf8EncodeChar, h1, h2, h3] using
            utf8Step_three c (by omega) h3 hs rest
        · simp [utf8EncodeChar, h1, h2, h3]
          omega
      · refine ⟨(0x80 + (c / 0x1000) % 0x40) :: (0x80 + (c / 0x40) % 0x40) ::
          (0x80 + c % 0x40) :: rest, ?_, ?_, ?_⟩
        · simp [utf8EncodeChar, h1, h2, h3]
        · simpa [utf8EncodeChar, h1, h2, h3] using
            utf8Step_four c (by omega) hlt rest
        · simp [utf8EncodeChar, h1, h2, h3]
          omega

set_option maxRecDepth 4096 in
/-- The step function never lengthens the unconsumed input. -/
theorem utf8Step_length_le (b : Nat) (rest : List Nat) (c : Nat)
    (restN : List Nat) (h : utf8Step b rest = some (c, restN)) :
    restN.length ≤ rest.length := by
  unfold utf8Step at h
  split_ifs at h
  · cases h; exact le_refl _
  · cases rest with
    | nil => cases h
    | cons b1 rest1 =>
      simp only at h
      split_ifs at h
      · cases h
        simp
      all_goals cases h
  · cases rest with
    | nil => cases h
    | cons b1 rest1 =>
      cases rest1 with
      | nil => cases h
      | cons b2 rest2 =>
        simp only at h
        split_ifs at h
        · cases h
          simp
          omega
        all_goals cases h
  · cases rest with
    | nil => cases h
    | cons b1 rest1 =>
      cases rest1 with
      | nil => cases h
      | cons b2 rest2 =>
        cases rest2 with
        | nil => cases h
        | cons b3 rest3 =>
          simp only at h
          split_ifs at h
          · cases h
            simp
            omega
          all_goals cases h

/-- The decoding loop is insensitive to the fuel as long as the fuel
covers the input length. -/
theorem utf8DecodeGo_fuel (fuel : Nat) (l : List Nat)
    (h : l.length ≤ fuel) :
    utf8DecodeGo fuel l = utf8DecodeGo l.length l := by
  induction fuel using Nat.strong_induction_on generalizing l with
  | _ fuel ih =>
    cases l with
    | nil => cases fuel <;> rfl
    | cons b rest =>
      cases fuel with
      | zero => simp at h
      | succ f =>
        rw [utf8DecodeGo]
        rw [show (b :: rest).length = rest.length + 1 from rfl, utf8DecodeGo]
        cases hstep : utf8Step b rest with
        | none => rfl
        | some p =>
          obtain ⟨c, restN⟩ := p
          have hlen : restN.length ≤ rest.length :=
            utf8Step_length_le b rest c restN hstep
          have hrl : rest.length + 1 ≤ f + 1 := h
          have h1 : utf8DecodeGo f restN = utf8DecodeGo restN.length restN :=
            ih f (by omega) restN (by omega)
          have h2 : utf8DecodeGo rest.length restN =
              utf8DecodeGo restN.length restN :=
            ih rest.length (by omega) restN hlen
          simp only [h1, h2]

/-- Decoding inverts encoding one character at a time. -/
theorem utf8Decode_encodeChar_append (c : Nat) (h : ValidCodepoint c)
    (rest : List Nat) :
    utf8Decode (utf8EncodeChar c ++ rest) =
      (utf8Decode rest).map (fun cs => c :: cs) := by
  obtain ⟨tail, henc, hstep, hlen⟩ := utf8Step_encodeChar c h rest
  have hpos : 0 < (utf8EncodeChar c).length := by
    unfold utf8EncodeChar
    split_ifs <;> simp
  unfold utf8Decode
  rw [henc]
  have hl : ((utf8EncodeChar c).headI :: tail).length = tail.length + 1 := rfl
  rw [hl, utf8DecodeGo, hstep]
  have hfuel : utf8DecodeGo tail.length rest = utf8DecodeGo rest.length rest := by
    apply utf8DecodeGo_fuel
    omega
  show Option.map (fun cs => c :: cs) (utf8DecodeGo tail.length rest) =
    Option.map (fun cs => c :: cs) (utf8DecodeGo rest.length rest)
  rw [hfuel]

/-- UTF-8 round-trip: decoding the encoding of any string of valid code
points recovers the string. -/
theorem utf8Decode_utf8Encode (cs : List Nat)
    (h : ∀ c ∈ cs, ValidCodepoint c) :
    utf8Decode (utf8Encode cs) = some cs := by
  induction cs with
  | nil => rfl
  | cons c cs ih =>
    have hc : ValidCodepoint c := h c (List.mem_cons_self c cs)
    have hrest : ∀ x ∈ cs, ValidCodepoint x :=
      fun x hx => h x (List.mem_cons_of_mem c hx)
    have ihv := ih hrest
    have : utf8Encode (c :: cs) = utf8EncodeChar c ++ utf8Encode cs := by
      unfold utf8Encode
      rw [List.map_cons, List.flatten_cons]
    rw [this, utf8Decode_encodeChar_append c hc, ihv]
    rfl

/-! ### Single-bit tampering

`flipBit l i j` flips bit `j` of byte `i` of a byte string, the
tampering operation the spec's tamper-detection property quantifies
over. -/

/-- Flip bit `j` of a byte. -/
def flipBitInByte (b j : Nat) : Nat :=
  if b.testBit j then b - 2 ^ j else b + 2 ^ j

/-- Flip bit `j` of byte `i` of a byte string. -/
def flipBit (l : List Nat) (i j : Nat) : List Nat :=
  l.set i (flipBitInByte (l.getD i 0) j)

theorem flipBitInByte_ne (b j : Nat) : flipBitInByte b j ≠ b := by
  unfold flipBitInByte
  split_ifs with h
  · have := Nat.testBit_implies_ge h
    have : 0 < 2 ^ j := Nat.pos_pow_of_pos j (by omega)
    omega
  · have : 0 < 2 ^ j := Nat.pos_pow_of_pos j (by omega)
    omega

theorem length_flipBit (l : List Nat) (i j : Nat) :
    (flipBit l i j).length = l.length := List.length_set ..

theorem flipBit_ne (l : List Nat) (i j : Nat) (hi : i < l.length) :
    flipBit l i j ≠ l := by
  intro hcontra
  have h1 : (flipBit l i j).getD i 0 = flipBitInByte (l.getD i 0) j := by
    unfold flipBit
    rw [List.getD_eq_getElem _ 0 (by rw [List.length_set]; exact hi)]
    exact List.getElem_set_self (by simpa using hi)
  rw [hcontra] at h1
  exact flipBitInByte_ne (l.getD i 0) j h1.symm

theorem sum_set_add (l : List Nat) (i x : Nat) (h : i < l.length) :
    (l.set i x).sum + l.getD i 0 = l.sum + x := by
  induction l generalizing i with
  | nil => simp at h
  | cons a l ih =>
    cases i with
    | zero => simp [List.set]; omega
    | succ n =>
      simp only [List.set, List.sum_cons, List.getD_cons_succ]
      have := ih n (by simpa using h)
      omega

/-- Flipping one bit of one byte changes the byte sum modulo 256. -/
theorem sum_flipBit_ne (l : List Nat) (i j : Nat) (hi : i < l.length)
    (hj : j < 8) :
    (flipBit l i j).sum % 256 ≠ l.sum % 256 := by
  unfold flipBit
  have hset := sum_set_add l i (flipBitInByte (l.getD i 0) j) hi
  set b := l.getD i 0 with hb
  set s := (l.set i (flipBitInByte b j)).sum with hs
  unfold flipBitInByte at hset
  split_ifs at hset with h
  · have hge := Nat.testBit_implies_ge h
    have h2 : s + 2 ^ j = l.sum := by omega
    interval_cases j <;> omega
  · have h2 : s = l.sum + 2 ^ j := by omega
    interval_cases j <;> omega

theorem getD_append_left (l1 l2 : List Nat) (i : Nat) (h : i < l1.length) :
    (l1 ++ l2).getD i 0 = l1.getD i 0 := by
  rw [List.getD_eq_getElem _ 0 (by simp; omega),
    List.getD_eq_getElem _ 0 h]
  exact List.getElem_append_left ..

theorem getD_append_right (l1 l2 : List Nat) (i : Nat)
    (h1 : l1.length ≤ i) (h2 : i < l1.length + l2.length) :
    (l1 ++ l2).getD i 0 = l2.getD (i - l1.length) 0 := by
  rw [List.getD_eq_getElem _ 0 (by simp; omega),
    List.getD_eq_getElem _ 0 (by omega)]
  exact List.getElem_append_right h1

theorem flipBit_append_left (l1 l2 : List Nat) (i j : Nat)
    (h : i < l1.length) :
    flipBit (l1 ++ l2) i j = flipBit l1 i j ++ l2 := by
  unfold flipBit
  rw [getD_append_left l1 l2 i h, List.set_append_left _ _ h]

theorem flipBit_append_right (l1 l2 : List Nat) (i j : Nat)
    (h1 : l1.length ≤ i) (h2 : i < l1.length + l2.length) :
    flipBit (l1 ++ l2) i j = l1 ++ flipBit l2 (i - l1.length) j := by
  unfold flipBit
  rw [getD_append_right l1 l2 i h1 h2, List.set_append_right _ _ h1]

/-! ### The AEAD contract

The repository encrypts through `cryptography.hazmat.primitives.ciphers
.aead.AESGCM`, an external library.  Following the spec's design note
that only the documented algorithmic contract of an AES-256-GCM
equivalent AEAD is relied upon, the cipher is a parameter carrying that
contract: decryption inverts encryption, decryption succeeds only on
the encryption of the returned plaintext under the same key and nonce
(`InvalidTag` otherwise, modelled as `none`), ciphertexts are bound to
their nonce, and no single-bit corruption of a ciphertext is again a
valid ciphertext. -/

structure AEAD where
  enc : List Nat → List Nat → List Nat → List Nat
  dec : List Nat → List Nat → List Nat → Option (List Nat)
  dec_enc : ∀ k n pt, dec k n (enc k n pt) = some pt
  enc_of_dec : ∀ k n ct pt, dec k n ct = some pt → ct = enc k n pt
  nonce_binding : ∀ k n n' pt pt', n.length = 12 → n'.length = 12 →
    enc k n pt = enc k n' pt' → n = n'
  flip_reject : ∀ k n pt i j, j < 8 → i < (enc k n pt).length →
    ∀ pt', flipBit (enc k n pt) i j ≠ enc k n pt'

/-! ### CryptoService (src/crypto/crypto_service.py) -/

/-- `domain.models`: an encrypted attribute is an opaque byte blob. -/
structure EncryptedField where
  blob : List Nat

/-- `CryptoService`: bound to one AEAD key.  The constructor's
`len(user_key) != 32` check is modelled by `CryptoService.init`. -/
structure CryptoService where
  aead : AEAD
  key : List Nat

/-- `CryptoService.__init__`: rejects keys that are not exactly 32
bytes (`ValueError`). -/
def CryptoService.init (A : AEAD) (user_key : List Nat) :
    Option CryptoService :=
  if user_key.length = 32 then some ⟨A, user_key⟩ else none

/-- `CryptoService.encrypt`: a `None` plaintext is treated as the empty
string; a fresh 12-byte nonce (`os.urandom(12)`, passed explicitly
here) is prepended to the AEAD ciphertext. -/
def CryptoService.encrypt (svc : CryptoService) (nonce : List Nat)
    (plaintext : Option (List Nat)) : EncryptedField :=
  let pt := plaintext.getD []
  ⟨nonce ++ svc.aead.enc svc.key nonce (utf8Encode pt)⟩

/-- Failures `CryptoService.decrypt` can raise: `InvalidTag` from the
AEAD, or `UnicodeDecodeError` from `bytes.decode("utf-8")`. -/
inductive DecryptError
  | invalidTag
  | unicodeDecodeError
deriving DecidableEq

/-- `CryptoService.decrypt`: absent field or empty blob yields the
empty string; otherwise the first 12 bytes are the nonce, the rest the
ciphertext+tag handed to the AEAD, and the result is UTF-8 decoded. -/
def CryptoService.decrypt (svc : CryptoService)
    (field : Option EncryptedField) : Except DecryptError (List Nat) :=
  match field with
  | none => .ok []
  | some f =>
    if f.blob = [] then .ok []
    else
      let nonce := f.blob.take 12
      let ciphertext := f.blob.drop 12
      match svc.aead.dec svc.key nonce ciphertext with
      | none => .error .invalidTag
      | some ptBytes =>
        match utf8Decode ptBytes with
        | none => .error .unicodeDecodeError
        | some s => .ok s

/-- Unfolding `CryptoService.decrypt` on a present, non-empty field. -/
theorem decrypt_some (svc : CryptoService) (f : EncryptedField)
    (hne : f.blob ≠ []) :
    CryptoService.decrypt svc (some f) =
      match svc.aead.dec svc.key (f.blob.take 12) (f.blob.drop 12) with
      | none => .error .invalidTag
      | some ptBytes =>
        match utf8Decode ptBytes with
        | none => .error .unicodeDecodeError
        | some s => .ok s := by
  unfold CryptoService.decrypt
  simp only [if_neg hne]

/-- C1: Round-trip — decrypting the result of encrypting any text
plaintext (empty and non-ASCII included) under the same 32-byte key
returns the original plaintext exactly. -/
theorem decrypt_encrypt_roundtrip (A : AEAD) (key nonce pt : List Nat)
    (hkey : key.length = 32) (hnonce : nonce.length = 12)
    (hpt : ∀ c ∈ pt, ValidCodepoint c) :
    CryptoService.decrypt ⟨A, key⟩
      (some (CryptoService.encrypt ⟨A, key⟩ nonce (some pt))) =
      Except.ok pt := by
  have hblob : (CryptoService.encrypt ⟨A, key⟩ nonce (some pt)).blob =
      nonce ++ A.enc key nonce (utf8Encode pt) := rfl
  have hne : (CryptoService.encrypt ⟨A, key⟩ nonce (some pt)).blob ≠ [] := by
    rw [hblob]
    intro h
    have h2 := congrArg List.length h
    simp [hnonce] at h2
  rw [decrypt_some ⟨A, key⟩ _ hne, hblob]
  have htake : (nonce ++ A.enc key nonce (utf8Encode pt)).take 12 = nonce := by
    rw [← hnonce]
    exact List.take_left ..
  have hdrop : (nonce ++ A.enc key nonce (utf8Encode pt)).drop 12 =
      A.enc key nonce (utf8Encode pt) := by
    rw [← hnonce]
    exact List.drop_left ..
  rw [htake, hdrop, A.dec_enc key nonce (utf8Encode pt)]
  simp only [utf8Decode_utf8Encode pt hpt]

/-- C2: Tamper detection — flipping any single bit of a blob produced
by `encrypt` makes `decrypt` fail with the AEAD authentication error;
the failure is never converted into a plaintext or a default value. -/
theorem decrypt_flipBit_tampered (A : AEAD) (key nonce pt : List Nat)
    (i j : Nat) (hkey : key.length = 32) (hnonce : nonce.length = 12)
    (hj : j < 8)
    (hi : i < (CryptoService.encrypt ⟨A, key⟩ nonce (some pt)).blob.length) :
    CryptoService.decrypt ⟨A, key⟩
      (some ⟨flipBit (CryptoService.encrypt ⟨A, key⟩ nonce (some pt)).blob i j⟩) =
      Except.error DecryptError.invalidTag := by
  have hblob : (CryptoService.encrypt ⟨A, key⟩ nonce (some pt)).blob =
      nonce ++ A.enc key nonce (utf8Encode pt) := rfl
  rw [hblob] at hi ⊢
  generalize hbody : A.enc key nonce (utf8Encode pt) = body at hi ⊢
  have hitot : i < nonce.length + body.length := by simpa using hi
  have hne : flipBit (nonce ++ body) i j ≠ [] := by
    intro h
    have h2 := congrArg List.length h
    rw [length_flipBit] at h2
    simp [hnonce] at h2
  rw [decrypt_some ⟨A, key⟩ ⟨flipBit (nonce ++ body) i j⟩ hne]
  by_cases hcase : i < 12
  · have hsplit : flipBit (nonce ++ body) i j = flipBit nonce i j ++ body :=
      flipBit_append_left nonce body i j (by omega)
    have hfl : (flipBit nonce i j).length = 12 := by
      rw [length_flipBit]; exact hnonce
    have htake : (flipBit nonce i j ++ body).take 12 = flipBit nonce i j := by
      rw [← hfl]; exact List.take_left ..
    have hdrop : (flipBit nonce i j ++ body).drop 12 = body := by
      rw [← hfl]; exact List.drop_left ..
    rw [hsplit]
    simp only [htake, hdrop]
    have hdec : A.dec key (flipBit nonce i j) body = none := by
      cases hd : A.dec key (flipBit nonce i j) body with
      | none => rfl
      | some pt2 =>
        exfalso
        have heq := A.enc_of_dec key (flipBit nonce i j) body pt2 hd
        have hcomb : A.enc key nonce (utf8Encode pt) =
            A.enc key (flipBit nonce i j) pt2 := by
          rw [hbody]; exact heq
        have hnb := A.nonce_binding key nonce (flipBit nonce i j)
          (utf8Encode pt) pt2 hnonce hfl hcomb
        exact flipBit_ne nonce i j (by omega) hnb.symm
    rw [hdec]
  · have hil : nonce.length ≤ i := by omega
    have hsplit : flipBit (nonce ++ body) i j =
        nonce ++ flipBit body (i - nonce.length) j :=
      flipBit_append_right nonce body i j hil hitot
    have htake : (nonce ++ flipBit body (i - nonce.length) j).take 12 = nonce := by
      rw [← hnonce]; exact List.take_left ..
    have hdrop : (nonce ++ flipBit body (i - nonce.length) j).drop 12 =
        flipBit body (i - nonce.length) j := by
      rw [← hnonce]; exact List.drop_left ..
    rw [hsplit]
    simp only [htake, hdrop]
    have hdec : A.dec key nonce (flipBit body (i - nonce.length) j) = none := by
      cases hd : A.dec key nonce (flipBit body (i - nonce.length) j) with
      | none => rfl
      | some pt2 =>
        exfalso
        have heq := A.enc_of_dec key nonce _ pt2 hd
        have hreject := A.flip_reject key nonce (utf8Encode pt)
          (i - nonce.length) j hj (by rw [hbody]; omega) pt2
        rw [hbody] at hreject
        exact hreject heq
    rw [hdec]

/-- C9: Absent-field decryption — an absent field or an empty blob
decrypts to the empty string without failing. -/
theorem decrypt_absent_or_empty (svc : CryptoService) :
    CryptoService.decrypt svc none = Except.ok [] ∧
    CryptoService.decrypt svc (some ⟨[]⟩) = Except.ok [] :=
  ⟨rfl, rfl⟩

/-! ### A concrete cipher satisfying the AEAD contract

Used to evaluate the theorems above on closed inputs.  The ciphertext
is the plaintext followed by a tag of `n.length + 4` bytes binding the
key, the nonce and the plaintext; decryption recomputes and compares
the tag. -/

/-- Tag of the reference cipher: the nonce followed by byte sums and
the length of the plaintext, reduced mod 256. -/
def modelTag (k n pt : List Nat) : List Nat :=
  n ++ [pt.sum % 256, pt.length % 256, k.sum % 256, 0]

theorem modelTag_length (k n pt : List Nat) :
    (modelTag k n pt).length = n.length + 4 := by
  simp [modelTag]

/-- Reference cipher encryption. -/
def modelEnc (k n pt : List Nat) : List Nat := pt ++ modelTag k n pt

theorem modelEnc_length (k n pt : List Nat) :
    (modelEnc k n pt).length = pt.length + (n.length + 4) := by
  simp [modelEnc, modelTag]

/-- Reference cipher decryption: succeeds exactly on well-tagged
ciphertexts. -/
def modelDec (k n ct : List Nat) : Option (List Nat) :=
  if n.length + 4 ≤ ct.length ∧
      ct.drop (ct.length - (n.length + 4)) =
        modelTag k n (ct.take (ct.length - (n.length + 4))) then
    some (ct.take (ct.length - (n.length + 4)))
  else none

theorem modelDec_modelEnc (k n pt : List Nat) :
    modelDec k n (modelEnc k n pt) = some pt := by
  unfold modelDec
  have hlen : (modelEnc k n pt).length - (n.length + 4) = pt.length := by
    rw [modelEnc_length]; omega
  have htake : (modelEnc k n pt).take pt.length = pt := by
    unfold modelEnc
    exact List.take_left ..
  have hdrop : (modelEnc k n pt).drop pt.length = modelTag k n pt := by
    unfold modelEnc
    exact List.drop_left ..
  have hcond : n.length + 4 ≤ (modelEnc k n pt).length := by
    rw [modelEnc_length]; omega
  simp [hlen, htake, hdrop, hcond]

theorem modelEnc_of_modelDec (k n ct pt : List Nat)
    (h : modelDec k n ct = some pt) : ct = modelEnc k n pt := by
  unfold modelDec at h
  split_ifs at h with hcond
  obtain ⟨hle, htag⟩ := hcond
  have hpt : ct.take (ct.length - (n.length + 4)) = pt := by
    injection h
  rw [hpt] at htag
  unfold modelEnc
  rw [← htag, ← hpt]
  exact (List.take_append_drop ..).symm

theorem modelEnc_nonce_binding (k n nA pt ptA : List Nat)
    (hn : n.length = 12) (hnA : nA.length = 12)
    (h : modelEnc k n pt = modelEnc k nA ptA) : n = nA := by
  have hlen := congrArg List.length h
  rw [modelEnc_length, modelEnc_length] at hlen
  have hpl : pt.length = ptA.length := by omega
  unfold modelEnc at h
  obtain ⟨-, htag⟩ := List.append_inj_of_length_left h hpl
  unfold modelTag at htag
  exact (List.append_inj_of_length_left htag (by omega)).1

theorem modelEnc_flip_reject (k n pt : List Nat) (i j : Nat) (hj : j < 8)
    (hi : i < (modelEnc k n pt).length) (ptA : List Nat) :
    flipBit (modelEnc k n pt) i j ≠ modelEnc k n ptA := by
  intro heq
  have hlen := congrArg List.length heq
  rw [length_flipBit, modelEnc_length, modelEnc_length] at hlen
  have hpl : pt.length = ptA.length := by omega
  rw [modelEnc_length] at hi
  by_cases hcase : i < pt.length
  · rw [show modelEnc k n pt = pt ++ modelTag k n pt from rfl,
      flipBit_append_left pt (modelTag k n pt) i j hcase] at heq
    have hfl : (flipBit pt i j).length = ptA.length := by
      rw [length_flipBit]; omega
    obtain ⟨hpt, htag⟩ :=
      List.append_inj_of_length_left (heq.trans rfl) hfl
    unfold modelTag at htag
    have hsum : pt.sum % 256 = ptA.sum % 256 := by
      have h4 := List.append_cancel_left htag
      simp only [List.cons.injEq] at h4
      exact h4.1
    rw [← hpt] at hsum
    exact sum_flipBit_ne pt i j hcase hj
      (by rw [hsum])
  · have hle : pt.length ≤ i := by omega
    rw [show modelEnc k n pt = pt ++ modelTag k n pt from rfl,
      flipBit_append_right pt (modelTag k n pt) i j hle
        (by rw [modelTag_length]; omega)] at heq
    obtain ⟨hpt, htag⟩ :=
      List.append_inj_of_length_left (heq.trans rfl) hpl
    rw [← hpt] at htag
    exact flipBit_ne (modelTag k n pt) (i - pt.length) j
      (by rw [modelTag_length]; omega) htag

/-- The reference cipher packaged as an `AEAD`. -/
def modelAEAD : AEAD where
  enc := modelEnc
  dec := modelDec
  dec_enc := modelDec_modelEnc
  enc_of_dec := modelEnc_of_modelDec
  nonce_binding := fun k n nA pt ptA hn hnA h =>
    modelEnc_nonce_binding k n nA pt ptA hn hnA h
  flip_reject := fun k n pt i j hj hi ptA =>
    modelEnc_flip_reject k n pt i j hj hi ptA

/-! ### Python-level errors raised by the session/auth layer -/

/-- Exceptions the modelled code can raise: `ValueError`, the argon2
exception classes other than `VerifyMismatchError` (which
`verify_password` catches), and `PermissionError` from
`require_auth`. -/
inductive PyError
  | valueError (msg : String)
  | permissionError (msg : String)
  | argonInvalidHash
  | argonVerificationError
deriving DecidableEq

/-! ### Domain model (src/domain/models.py) -/

/-- `User` row: numeric id (DB-assigned), username, argon2 hash string,
per-user salt, creation timestamp. -/
structure User where
  id : Int
  username : List Nat
  password_hash : List Nat
  salt : List Nat
  created_at : Nat

/-! ### Identity store (src/INoteRepository/user_repository.py)

The repository delegates to a SQLAlchemy session; the spec treats it as
the external identity store (`findIdentityByUsername`/`createIdentity`,
with the numeric primary key assigned on insert).  It is modelled as an
in-memory table. -/

structure UserStore where
  users : List User
  next_id : Int

/-- `SQLAlchemyUserRepository.find_by_username`. -/
def UserStore.find_by_username (store : UserStore) (username : List Nat) :
    Option User :=
  store.users.find? (fun u => u.username == username)

/-- `SQLAlchemyUserRepository.create`: inserts the row and assigns the
primary key. -/
def UserStore.create (store : UserStore) (username password_hash salt : List Nat)
    (created_at : Nat) : User × UserStore :=
  let user : User := ⟨store.next_id, username, password_hash, salt, created_at⟩
  (user, ⟨store.users ++ [user], store.next_id + 1⟩)

/-! ### SessionContext (src/services/session.py) -/

/-- `SessionContext` dataclass: optional user, optional crypto service,
authentication flag. -/
structure SessionContext where
  user : Option User
  crypto : Option CryptoService
  is_authenticated : Bool

/-- The dataclass defaults: the empty (Anonymous) session. -/
def SessionContext.anonymous : SessionContext := ⟨none, none, false⟩

/-- `SessionContext.set_session`: raises `ValueError` if either argument
is `None`; otherwise populates all three fields. -/
def SessionContext.set_session (s : SessionContext) (user : Option User)
    (crypto : Option CryptoService) : Except PyError SessionContext :=
  match user, crypto with
  | some u, some c => .ok ⟨some u, some c, true⟩
  | _, _ => .error (.valueError "user and crypto must be provided")

/-- `SessionContext.clear`. -/
def SessionContext.clear (s : SessionContext) : SessionContext :=
  ⟨none, none, false⟩

/-- `SessionContext.require_auth`: raises `PermissionError` unless the
flag is set and both fields are present. -/
def SessionContext.require_auth (s : SessionContext) : Except PyError Unit :=
  if !s.is_authenticated || s.user.isNone || s.crypto.isNone then
    .error (.permissionError "Not authenticated")
  else .ok ()

/-- `SessionContext.get_user`: gated by `require_auth`, then returns the
stored optional user. -/
def SessionContext.get_user (s : SessionContext) :
    Except PyError (Option User) :=
  match s.require_auth with
  | .error e => .error e
  | .ok _ => .ok s.user

/-- `SessionContext.get_crypto`: gated by `require_auth`, then returns
the stored optional crypto service. -/
def SessionContext.get_crypto (s : SessionContext) :
    Except PyError (Option CryptoService) :=
  match s.require_auth with
  | .error e => .error e
  | .ok _ => .ok s.crypto

/-- The operations the code performs on a `SessionContext`: activate =
`set_session` (a raised `ValueError` leaves the state untouched),
deactivate = `clear`. -/
inductive SessionOp
  | activate (user : Option User) (crypto : Option CryptoService)
  | deactivate

/-- One session operation; an exception aborts before any mutation. -/
def SessionContext.step (s : SessionContext) : SessionOp → SessionContext
  | .activate u c =>
    match s.set_session u c with
    | .ok sA => sA
    | .error _ => s
  | .deactivate => s.clear

/-- A sequence of session operations. -/
def SessionContext.run (s : SessionContext) (ops : List SessionOp) :
    SessionContext :=
  ops.foldl SessionContext.step s

/-- Fully populated or fully empty — the spec's no-partial-state
invariant. -/
def SessionContext.Consistent (s : SessionContext) : Prop :=
  (s.user.isSome = true ∧ s.crypto.isSome = true ∧ s.is_authenticated = true) ∨
  (s.user = none ∧ s.crypto = none ∧ s.is_authenticated = false)

/-! ### PasswordHasher (src/crypto/password_hasher.py)

The argon2 library is external; a call to its `verify` is modelled by
its outcome: a returned boolean or one of its exception classes. -/

/-- Outcome of `argon2.PasswordHasher.verify(stored_hash, plaintext)`. -/
inductive ArgonOutcome
  | ok (b : Bool)
  | verifyMismatch
  | invalidHash
  | verificationError

/-- `PasswordHasher.hash_password`: rejects the empty password,
otherwise defers to the library hash function. -/
def PasswordHasher.hash_password (hashFn : List Nat → List Nat)
    (plaintext : List Nat) : Except PyError (List Nat) :=
  if plaintext = [] then .error (.valueError "Password cannot be empty")
  else .ok (hashFn plaintext)

/-- `PasswordHasher.verify_password`: calls the library verify and
catches exactly `VerifyMismatchError` (returning `False`); any other
library exception propagates. -/
def PasswordHasher.verify_password (lib : List Nat → List Nat → ArgonOutcome)
    (plaintext stored_hash : List Nat) : Except PyError Bool :=
  match lib stored_hash plaintext with
  | .ok b => .ok b
  | .verifyMismatch => .ok false
  | .invalidHash => .error .argonInvalidHash
  | .verificationError => .error .argonVerificationError

/-! ### KeyDeriver (src/crypto/key_deriver.py) -/

/-- Contract of the external HKDF-SHA256 implementation: called with
`length=32`, it returns exactly 32 bytes. -/
structure HKDFLib where
  derive : List Nat → List Nat → List Nat → List Nat
  length_eq : ∀ ikm salt info, (derive ikm salt info).length = 32

/-- Bytes of a Lean string, for the domain-separation info string. -/
def strBytes (s : String) : List Nat := s.toList.map Char.toNat

/-- Decimal digits of a user id, modelling `str(user_id).encode()`. -/
def decimalBytes (n : Nat) : List Nat := strBytes (toString n)

/-- `KeyDeriver._validate_key` (run by `KeyDeriver.__init__`). -/
def KeyDeriver.validate_key (key : List Nat) : Except PyError Unit :=
  if key.length ≠ 32 then
    .error (.valueError "Master key must be exactly 32 bytes (AES-256)")
  else .ok ()

/-- `KeyDeriver(master_key).derive_user_key(user_salt, user_id)`: the
constructor validates the master key, then the salt length and the user
id are checked and HKDF is called with the domain-separation info
string. -/
def KeyDeriver.derive_user_key (H : HKDFLib) (master_key user_salt : List Nat)
    (user_id : Int) : Except PyError (List Nat) :=
  match KeyDeriver.validate_key master_key with
  | .error e => .error e
  | .ok _ =>
    if user_salt.length < 16 then
      .error (.valueError "user_salt must be at least 16 bytes")
    else if user_id ≤ 0 then
      .error (.valueError "user_id must be a positive integer")
    else
      let info := strBytes "taskmanager-user-" ++ decimalBytes user_id.toNat
      .ok (H.derive master_key user_salt info)

/-! ### AuthService (src/services/auth_service.py)

State (identity store + session) is passed explicitly; each operation
returns its outcome together with the post-state, so an exception
leaves the state component it never wrote untouched, exactly as the
Python mutation order does. -/

/-- Python `str.strip()` whitespace (the ASCII whitespace characters;
the claims depend only on whitespace-only versus non-empty results). -/
def isPySpace (c : Nat) : Bool :=
  c == 32 || c == 9 || c == 10 || c == 13 || c == 11 || c == 12

/-- Python `str.strip()`. -/
def pyStrip (s : List Nat) : List Nat :=
  ((s.dropWhile isPySpace).reverse.dropWhile isPySpace).reverse

/-- The state the auth flow reads and writes. -/
structure AuthState where
  store : UserStore
  session : SessionContext

/-- `AuthService.register`: validates, checks availability, hashes the
password, and persists a new user; the session is never touched.  The
salt (`os.urandom(16)`) and clock are explicit inputs. -/
def AuthService.register (hashFn : List Nat → List Nat) (salt : List Nat)
    (now : Nat) (username password : List Nat) (st : AuthState) :
    Except PyError User × AuthState :=
  if pyStrip username = [] then
    (.error (.valueError "Username cannot be empty"), st)
  else if password = [] then
    (.error (.valueError "Password cannot be empty"), st)
  else
    match st.store.find_by_username (pyStrip username) with
    | some _ => (.error (.valueError "Username already exists"), st)
    | none =>
      match PasswordHasher.hash_password hashFn password with
      | .error e => (.error e, st)
      | .ok password_hash =>
        ( .ok (st.store.create (pyStrip username) password_hash salt now).1,
          ⟨(st.store.create (pyStrip username) password_hash salt now).2,
           st.session⟩)

/-- `AuthService.login`: validates input, looks the user up, verifies
the password, derives the user key, builds the `CryptoService` and only
then populates the session.  Every failure raises before the session is
written. -/
def AuthService.login (lib : List Nat → List Nat → ArgonOutcome)
    (H : HKDFLib) (master_key : List Nat) (A : AEAD)
    (username password : List Nat) (st : AuthState) :
    Except PyError SessionContext × AuthState :=
  if pyStrip username = [] ∨ password = [] then
    (.error (.valueError "Invalid username or password"), st)
  else
    match st.store.find_by_username (pyStrip username) with
    | none => (.error (.valueError "Invalid username or password"), st)
    | some user =>
      match PasswordHasher.verify_password lib password user.password_hash with
      | .error e => (.error e, st)
      | .ok ok =>
        if ok then
          match KeyDeriver.derive_user_key H master_key user.salt user.id with
          | .error e => (.error e, st)
          | .ok user_key =>
            match CryptoService.init A user_key with
            | none =>
              (.error (.valueError "user_key must be exactly 32 bytes (AES-256)"), st)
            | some crypto =>
              match st.session.set_session (some user) (some crypto) with
              | .error e => (.error e, st)
              | .ok sA => (.ok sA, ⟨st.store, sA⟩)
        else (.error (.valueError "Invalid username or password"), st)

/-- `AuthService.logout`. -/
def AuthService.logout (st : AuthState) : AuthState :=
  ⟨st.store, st.session.clear⟩

/-- A concrete HKDF implementation satisfying the length contract, used
to evaluate the theorems on closed inputs. -/
def modelHKDF : HKDFLib where
  derive := fun _ _ _ => List.replicate 32 0
  length_eq := fun _ _ _ => by simp

/-- One session step preserves the no-partial-state invariant. -/
theorem consistent_step (s : SessionContext) (hs : s.Consistent)
    (op : SessionOp) : (s.step op).Consistent := by
  cases op with
  | activate u c =>
    cases u with
    | none => exact hs
    | some uu =>
      cases c with
      | none => exact hs
      | some cc => exact Or.inl ⟨rfl, rfl, rfl⟩
  | deactivate => exact Or.inr ⟨rfl, rfl, rfl⟩

/-- Any session run preserves the no-partial-state invariant. -/
theorem consistent_run (s : SessionContext) (hs : s.Consistent)
    (ops : List SessionOp) : (s.run ops).Consistent := by
  induction ops generalizing s with
  | nil => exact hs
  | cons op ops ih => exact ih (s.step op) (consistent_step s hs op)

/-- Either the login aborted with the state untouched, or it succeeded
and installed the fully populated session. -/
theorem login_cases (lib : List Nat → List Nat → ArgonOutcome) (H : HKDFLib)
    (master_key : List Nat) (A : AEAD) (username password : List Nat)
    (st : AuthState) :
    (AuthService.login lib H master_key A username password st).2 = st ∨
    ∃ sA, AuthService.login lib H master_key A username password st =
      (.ok sA, ⟨st.store, sA⟩) := by
  unfold AuthService.login
  split_ifs
  · left; rfl
  · cases hf : st.store.find_by_username (pyStrip username) with
    | none => left; rfl
    | some user =>
      simp only []
      cases hv : PasswordHasher.verify_password lib password user.password_hash with
      | error e => left; rfl
      | ok ok =>
        simp only []
        cases ok with
        | false => left; rfl
        | true =>
          simp only [if_true]
          cases hd : KeyDeriver.derive_user_key H master_key user.salt user.id with
          | error e => left; rfl
          | ok user_key =>
            simp only []
            cases hinit : CryptoService.init A user_key with
            | none => left; rfl
            | some crypto =>
              right
              exact ⟨_, rfl⟩

/-- C3 counterexample: on a stored hash for which the argon2 library
raises `InvalidHashError` (e.g. a malformed hash string),
`verify_password` does not return a boolean — the exception propagates
uncaught, because only `VerifyMismatchError` is caught. -/
theorem verify_password_invalidHash_propagates :
    PasswordHasher.verify_password (fun _ _ => ArgonOutcome.invalidHash) [] [] =
      Except.error PyError.argonInvalidHash ∧
    PasswordHasher.verify_password (fun _ _ => ArgonOutcome.invalidHash) [] [] ≠
      Except.ok false ∧
    PasswordHasher.verify_password (fun _ _ => ArgonOutcome.invalidHash) [] [] ≠
      Except.ok true :=
  ⟨rfl, fun h => Except.noConfusion h, fun h => Except.noConfusion h⟩

/-- C3 (amended): `verify_password` returns the library's boolean on a
normal return, converts exactly `VerifyMismatchError` into `False`, and
propagates every other verification-library exception (malformed hash,
parameter mismatch) instead of converting it to `False`. -/
theorem verify_password_outcomes (lib : List Nat → List Nat → ArgonOutcome)
    (plaintext stored_hash : List Nat) :
    (∀ b, lib stored_hash plaintext = .ok b →
      PasswordHasher.verify_password lib plaintext stored_hash = .ok b) ∧
    (lib stored_hash plaintext = .verifyMismatch →
      PasswordHasher.verify_password lib plaintext stored_hash = .ok false) ∧
    (lib stored_hash plaintext = .invalidHash →
      PasswordHasher.verify_password lib plaintext stored_hash =
        .error .argonInvalidHash) ∧
    (lib stored_hash plaintext = .verificationError →
      PasswordHasher.verify_password lib plaintext stored_hash =
        .error .argonVerificationError) := by
  refine ⟨fun b h => ?_, fun h => ?_, fun h => ?_, fun h => ?_⟩ <;>
    unfold PasswordHasher.verify_password <;> rw [h]

/-- C4: login atomicity — every login failure (empty input, unknown
username, failed verification, or any later exception) returns with the
state unchanged; in particular a failed login from the anonymous
session leaves it anonymous, with no identity, no cipher and the flag
down. -/
theorem login_failure_session_unchanged
    (lib : List Nat → List Nat → ArgonOutcome) (H : HKDFLib)
    (master_key : List Nat) (A : AEAD) (username password : List Nat)
    (st : AuthState) (e : PyError)
    (h : (AuthService.login lib H master_key A username password st).1 =
      .error e) :
    (AuthService.login lib H master_key A username password st).2 = st ∧
    (st.session = SessionContext.anonymous →
      ((AuthService.login lib H master_key A username password st).2.session.user = none ∧
       (AuthService.login lib H master_key A username password st).2.session.crypto = none ∧
       (AuthService.login lib H master_key A username password st).2.session.is_authenticated = false)) := by
  rcases login_cases lib H master_key A username password st with hc | ⟨sA, hc⟩
  · refine ⟨hc, fun ha => ?_⟩
    rw [hc, ha]
    exact ⟨rfl, rfl, rfl⟩
  · rw [hc] at h
    cases h

/-- C5: username-enumeration resistance — an unknown username and a
found user whose password verification reports a mismatch produce the
identical error, the same `ValueError` with the same message. -/
theorem login_enumeration_resistance
    (lib : List Nat → List Nat → ArgonOutcome) (H : HKDFLib)
    (master_key : List Nat) (A : AEAD) (username password : List Nat)
    (st : AuthState) :
    (st.store.find_by_username (pyStrip username) = none →
      (AuthService.login lib H master_key A username password st).1 =
        .error (.valueError "Invalid username or password")) ∧
    (∀ user, st.store.find_by_username (pyStrip username) = some user →
      lib user.password_hash password = .verifyMismatch →
      (AuthService.login lib H master_key A username password st).1 =
        .error (.valueError "Invalid username or password")) := by
  constructor
  · intro hf
    unfold AuthService.login
    split_ifs
    · rfl
    · rw [hf]
  · intro user hf hv
    unfold AuthService.login
    split_ifs
    · rfl
    · rw [hf]
      simp only []
      unfold PasswordHasher.verify_password
      rw [hv]
      rfl

/-- C6: session gating — the cipher-dependent operations fail with the
`Not authenticated` error on the anonymous session, succeed on the
session installed by `set_session` with a user and a cipher, and fail
again after `clear`; no cipher is ever obtainable from an anonymous
session. -/
theorem session_gating (s : SessionContext) (u : User) (c : CryptoService) :
    (SessionContext.anonymous.require_auth =
        .error (.permissionError "Not authenticated") ∧
     SessionContext.anonymous.get_user =
        .error (.permissionError "Not authenticated") ∧
     SessionContext.anonymous.get_crypto =
        .error (.permissionError "Not authenticated")) ∧
    (∀ sA, s.set_session (some u) (some c) = .ok sA →
      sA.require_auth = .ok () ∧ sA.get_user = .ok (some u) ∧
      sA.get_crypto = .ok (some c)) ∧
    (∀ sB : SessionContext,
      sB.clear.require_auth = .error (.permissionError "Not authenticated") ∧
      sB.clear.get_user = .error (.permissionError "Not authenticated") ∧
      sB.clear.get_crypto = .error (.permissionError "Not authenticated")) := by
  refine ⟨⟨rfl, rfl, rfl⟩, ?_, fun sB => ⟨rfl, rfl, rfl⟩⟩
  intro sA hA
  injection hA with h
  subst h
  exact ⟨rfl, rfl, rfl⟩

/-- C7: the session state machine never reaches a partial state from
the initial anonymous session; `set_session` rejects an absent
argument without mutating anything, and `clear` is an unconditional
(hence idempotent) transition to the empty state. -/
theorem session_no_partial_state (ops : List SessionOp) :
    (SessionContext.anonymous.run ops).Consistent ∧
    (∀ s : SessionContext, ∀ c, s.set_session none c =
        .error (.valueError "user and crypto must be provided")) ∧
    (∀ s : SessionContext, ∀ u, s.set_session u none =
        .error (.valueError "user and crypto must be provided")) ∧
    (∀ s : SessionContext, s.clear = SessionContext.anonymous) := by
  refine ⟨consistent_run _ (Or.inr ⟨rfl, rfl, rfl⟩) ops, ?_, ?_, fun s => rfl⟩
  · intro s c
    cases c <;> rfl
  · intro s u
    cases u <;> rfl

/-- C8: key-derivation misuse errors — a non-32-byte master secret is
rejected first (by the constructor), then a short salt, then a
non-positive user id; with a 32-byte master secret, a salt of at least
16 bytes and a positive user id the derivation succeeds and returns a
32-byte key. -/
theorem derive_user_key_validation (H : HKDFLib)
    (master_key user_salt : List Nat) (user_id : Int) :
    (master_key.length ≠ 32 →
      KeyDeriver.derive_user_key H master_key user_salt user_id =
        .error (.valueError "Master key must be exactly 32 bytes (AES-256)")) ∧
    (master_key.length = 32 → user_salt.length < 16 →
      KeyDeriver.derive_user_key H master_key user_salt user_id =
        .error (.valueError "user_salt must be at least 16 bytes")) ∧
    (master_key.length = 32 → 16 ≤ user_salt.length → user_id ≤ 0 →
      KeyDeriver.derive_user_key H master_key user_salt user_id =
        .error (.valueError "user_id must be a positive integer")) ∧
    (master_key.length = 32 → 16 ≤ user_salt.length → 0 < user_id →
      ∃ key, KeyDeriver.derive_user_key H master_key user_salt user_id =
        .ok key ∧ key.length = 32) := by
  refine ⟨fun h1 => ?_, fun h1 h2 => ?_, fun h1 h2 h3 => ?_, fun h1 h2 h3 => ?_⟩
  · unfold KeyDeriver.derive_user_key KeyDeriver.validate_key
    rw [if_pos h1]
  · unfold KeyDeriver.derive_user_key KeyDeriver.validate_key
    rw [if_neg (by omega : ¬ master_key.length ≠ 32)]
    rw [if_pos h2]
  · unfold KeyDeriver.derive_user_key KeyDeriver.validate_key
    rw [if_neg (by omega : ¬ master_key.length ≠ 32)]
    rw [if_neg (by omega : ¬ user_salt.length < 16), if_pos h3]
  · refine ⟨H.derive master_key user_salt
      (strBytes "taskmanager-user-" ++ decimalBytes user_id.toNat),
      ?_, H.length_eq ..⟩
    unfold KeyDeriver.derive_user_key KeyDeriver.validate_key
    rw [if_neg (by omega : ¬ master_key.length ≠ 32)]
    rw [if_neg (by omega : ¬ user_salt.length < 16),
      if_neg (by omega : ¬ user_id ≤ 0)]

/-- C10: registration never authenticates — whatever `register` does
(succeed, or fail on empty input, a duplicate username, or the hash
call), the session component of the state is returned unchanged. -/
theorem register_session_unchanged (hashFn : List Nat → List Nat)
    (salt : List Nat) (now : Nat) (username password : List Nat)
    (st : AuthState) :
    (AuthService.register hashFn salt now username password st).2.session =
      st.session := by
  unfold AuthService.register
  split_ifs
  · rfl
  · rfl
  · cases st.store.find_by_username (pyStrip username) with
    | some u => rfl
    | none =>
      unfold PasswordHasher.hash_password
      split_ifs <;> rfl

/-! ### Closed-input evaluations of the theorems above -/

/-- A concrete user row. -/
def sampleUser : User := ⟨1, [97], [104], List.replicate 16 0, 0⟩

/-- C1 evaluated: a concrete key, nonce, and plaintext containing a
non-ASCII code point round-trip exactly. -/
theorem decrypt_encrypt_roundtrip_witness :
    CryptoService.decrypt ⟨modelAEAD, List.replicate 32 0⟩
      (some (CryptoService.encrypt ⟨modelAEAD, List.replicate 32 0⟩
        (List.replicate 12 0) (some [72, 233, 20013]))) =
      Except.ok [72, 233, 20013] :=
  decrypt_encrypt_roundtrip modelAEAD (List.replicate 32 0)
    (List.replicate 12 0) [72, 233, 20013] (by decide) (by decide) (by decide)

/-- C2 evaluated: flipping the lowest bit of the first blob byte of a
concrete encryption makes decryption fail with the tag error. -/
theorem decrypt_flipBit_tampered_witness :
    CryptoService.decrypt ⟨modelAEAD, List.replicate 32 0⟩
      (some ⟨flipBit (CryptoService.encrypt ⟨modelAEAD, List.replicate 32 0⟩
        (List.replicate 12 0) (some [65])).blob 0 0⟩) =
      Except.error DecryptError.invalidTag :=
  decrypt_flipBit_tampered modelAEAD (List.replicate 32 0)
    (List.replicate 12 0) [65] 0 0 (by decide) (by decide) (by decide)
    (by decide)

/-- C3 (amended) evaluated: a library mismatch on concrete inputs
becomes `False`. -/
theorem verify_password_outcomes_witness :
    PasswordHasher.verify_password (fun _ _ => ArgonOutcome.verifyMismatch)
      [112] [104] = Except.ok false :=
  (verify_password_outcomes (fun _ _ => ArgonOutcome.verifyMismatch)
    [112] [104]).2.1 rfl

/-- C4 evaluated: a concrete failed login (unknown username, empty
store) returns the state unchanged. -/
theorem login_failure_session_unchanged_witness :
    (AuthService.login (fun _ _ => ArgonOutcome.verifyMismatch) modelHKDF
      (List.replicate 32 0) modelAEAD [97] [98]
      ⟨⟨[], 1⟩, SessionContext.anonymous⟩).2 =
      ⟨⟨[], 1⟩, SessionContext.anonymous⟩ :=
  (login_failure_session_unchanged (fun _ _ => ArgonOutcome.verifyMismatch)
    modelHKDF (List.replicate 32 0) modelAEAD [97] [98]
    ⟨⟨[], 1⟩, SessionContext.anonymous⟩
    (.valueError "Invalid username or password") rfl).1

/-- C5 evaluated: an unknown username on a concrete empty store yields
the invalid-credentials error. -/
theorem login_enumeration_resistance_witness :
    (AuthService.login (fun _ _ => ArgonOutcome.verifyMismatch) modelHKDF
      (List.replicate 32 0) modelAEAD [97] [98]
      ⟨⟨[], 1⟩, SessionContext.anonymous⟩).1 =
      Except.error (PyError.valueError "Invalid username or password") :=
  (login_enumeration_resistance (fun _ _ => ArgonOutcome.verifyMismatch)
    modelHKDF (List.replicate 32 0) modelAEAD [97] [98]
    ⟨⟨[], 1⟩, SessionContext.anonymous⟩).1 rfl

/-- C6 evaluated: the session installed by a concrete `set_session`
passes the gate and returns the stored user and cipher. -/
theorem session_gating_witness :
    (SessionContext.mk (some sampleUser)
        (some ⟨modelAEAD, List.replicate 32 0⟩) true).require_auth =
      Except.ok () ∧
    (SessionContext.mk (some sampleUser)
        (some ⟨modelAEAD, List.replicate 32 0⟩) true).get_user =
      Except.ok (some sampleUser) ∧
    (SessionContext.mk (some sampleUser)
        (some ⟨modelAEAD, List.replicate 32 0⟩) true).get_crypto =
      Except.ok (some ⟨modelAEAD, List.replicate 32 0⟩) :=
  (session_gating SessionContext.anonymous sampleUser
    ⟨modelAEAD, List.replicate 32 0⟩).2.1 _ rfl

/-- C8 evaluated: concrete success (32-byte key returned) and each of
the three concrete misuse failures. -/
theorem derive_user_key_validation_witness :
    (∃ key, KeyDeriver.derive_user_key modelHKDF (List.replicate 32 0)
      (List.replicate 16 1) 5 = Except.ok key ∧ key.length = 32) ∧
    KeyDeriver.derive_user_key modelHKDF (List.replicate 31 0)
      (List.replicate 16 1) 5 =
      Except.error (PyError.valueError
        "Master key must be exactly 32 bytes (AES-256)") ∧
    KeyDeriver.derive_user_key modelHKDF (List.replicate 32 0)
      (List.replicate 15 1) 5 =
      Except.error (PyError.valueError "user_salt must be at least 16 bytes") ∧
    KeyDeriver.derive_user_key modelHKDF (List.replicate 32 0)
      (List.replicate 16 1) 0 =
      Except.error (PyError.valueError "user_id must be a positive integer") :=
  ⟨(derive_user_key_validation modelHKDF (List.replicate 32 0)
      (List.replicate 16 1) 5).2.2.2 (by decide) (by decide) (by decide),
   (derive_user_key_validation modelHKDF (List.replicate 31 0)
      (List.replicate 16 1) 5).1 (by decide),
   (derive_user_key_validation modelHKDF (List.replicate 32 0)
      (List.replicate 15 1) 5).2.1 (by decide) (by decide),
   (derive_user_key_validation modelHKDF (List.replicate 32 0)
      (List.replicate 16 1) 0).2.2.1 (by decide) (by decide) (by decide)⟩

end TaskManager
